import Mathlib

/-!
Shallow embedding of the trust-and-state core of direnv (Go sources under
src/: `cmd_dump.go`, containing the `CmdDump` command and the RC
(Configuration Unit) implementation: `FindRC`, `RCFromPath`, `RCFromEnv`,
`RC.Allow`, `RC.Deny`, `RC.Allowed`, `RC.RelTo`, `RC.Load`,
`RC.RecordState`, `rootDir`, `eachDir`, `fileExists`, `fileHash`, `allow`,
`findUp`).

Modelling conventions:
- The filesystem is an explicit value (`FS`): a finite association list of
  regular files (path to byte contents as a `String`), a finite association
  list of symlinks (link path to target path), modification times, and the
  process working directory (`none` models a failing `os.Getwd`).
- `os.Open` / `os.Stat` / `ioutil.WriteFile` follow symlinks one step via
  `FS.resolvePath`; Go's `filepath.Abs` is purely lexical
  (`filepath.Clean(filepath.Join(wd, path))`) and does NOT follow symlinks,
  so its model `filepathAbs` never consults the symlink table.  Paths are
  assumed already clean (no `.`/`..` segments, no trailing slash), which is
  the form produced by `eachDir`/`findUp`; `filepathJoin` and `filepathDir`
  model `filepath.Join` / `filepath.Dir` on clean inputs.
- The SHA-256 hex digest, `filepath.Rel`, the subprocess runner
  (`exec.Cmd.Output`) and the gzenv decoder (`LoadEnv`) are pure parameters
  (fields of `World`, or explicit function arguments of `RC.Load`): the
  embedding is quantified over their behaviour.
- Fallible Go code returns `Option`/`Except`; a Go `panic` inside a called
  helper (only reachable through `RelTo`/`rootDir`) is modelled by `RC.Load`
  returning `none` (the process aborts and nothing is returned).
-/

namespace Direnv

/-! ### Association-list primitives (model of Go maps keyed by strings) -/

def lookupAssoc {α : Type} : List (String × α) → String → Option α
  | [], _ => none
  | (k, v) :: rest, key => if key = k then some v else lookupAssoc rest key

def removeAssoc {α : Type} : List (String × α) → String → List (String × α)
  | [], _ => []
  | (k, v) :: rest, key =>
    if k = key then removeAssoc rest key else (k, v) :: removeAssoc rest key

/-! ### Environment snapshots (Go `Env`, a `map[string]string`) -/

abbrev Env := List (String × String)

def Env.get (e : Env) (k : String) : Option String := lookupAssoc e k

def Env.eraseKey (e : Env) (k : String) : Env := removeAssoc e k

/-- Go map assignment `env[k] = v`. -/
def Env.set (e : Env) (k : String) (v : String) : Env := (k, v) :: Env.eraseKey e k

def Env.keys (e : Env) : List String := e.map Prod.fst

/-- `Env.ToGoEnv`: render the snapshot into `KEY=VALUE` strings for the
spawned subprocess. -/
def Env.ToGoEnv (e : Env) : List String := e.map (fun p => p.1 ++ "=" ++ p.2)

/-! ### Filesystem model -/

structure FS where
  files : List (String × String)
  symlinks : List (String × String)
  /-- Paths whose directory entry exists but which cannot be opened or read
  (permission denial or an I/O error during the read). -/
  unreadable : List String
  mtimes : List (String × Nat)
  wd : Option String
deriving DecidableEq, Repr

/-- One-step symlink resolution, as performed by the kernel for
`os.Open`/`os.Stat`. -/
def FS.resolvePath (fs : FS) (p : String) : String :=
  match lookupAssoc fs.symlinks p with
  | some target => target
  | none => p

/-- `os.Stat(p)` succeeds: the (symlink-resolved) path names an existing
regular file.  The empty path never names a file. -/
def FS.statOk (fs : FS) (p : String) : Bool :=
  if p = "" then false else (lookupAssoc fs.files (fs.resolvePath p)).isSome

/-- `os.Open` + read-to-end (follows symlinks); fails on a missing or
unreadable target. -/
def FS.readFile (fs : FS) (p : String) : Option String :=
  if fs.unreadable.contains (fs.resolvePath p) then none
  else lookupAssoc fs.files (fs.resolvePath p)

/-- `ioutil.WriteFile` (whole-file creation/overwrite). -/
def FS.writeFile (fs : FS) (p : String) (c : String) : FS :=
  { fs with files := (p, c) :: removeAssoc fs.files p }

/-- `os.Remove` removes the named directory entry itself (it does not follow
symlinks). -/
def FS.removeFile (fs : FS) (p : String) : FS :=
  { fs with files := removeAssoc fs.files p, symlinks := removeAssoc fs.symlinks p }

/-- A directory entry (file or symlink) exists at the path itself. -/
def FS.existsRaw (fs : FS) (p : String) : Bool :=
  if p = "" then false
  else (lookupAssoc fs.files p).isSome || (lookupAssoc fs.symlinks p).isSome

def FS.mtimeOf (fs : FS) (p : String) : Option Nat :=
  lookupAssoc fs.mtimes (fs.resolvePath p)

/-! ### Lexical path helpers (Go `path/filepath` on clean paths) -/

/-- Go `filepath.Abs`: if the path is absolute return it unchanged,
otherwise join it to the working directory; fails only when the working
directory cannot be determined.  Purely lexical — symlinks are NOT
followed (`filepath.EvalSymlinks` is a different function, never called by
this code). -/
def filepathAbs (fs : FS) (p : String) : Option String :=
  if p.data.head? = some '/' then some p
  else
    match fs.wd with
    | none => none
    | some wd => some (if wd = "/" then wd ++ p else wd ++ "/" ++ p)

/-- Go `filepath.Join` on clean components. -/
def filepathJoin (a : String) (b : String) : String :=
  if a = "" then b else if a = "/" then a ++ b else a ++ "/" ++ b

/-- Index of the last `/` in a character list, if any. -/
def lastSlashIdx (l : List Char) : Option Nat :=
  match l.reverse.findIdx? (fun c => c = '/') with
  | none => none
  | some j => some (l.length - 1 - j)

/-- Go `filepath.Dir` on a clean path: everything before the last slash;
`/x` gives `/`, a path with no slash gives `.`. -/
def filepathDir (p : String) : String :=
  match lastSlashIdx p.data with
  | none => "."
  | some 0 => "/"
  | some i => String.mk (p.data.take i)

/-- The format loop of Go `fmt.Sprintf` restricted to `%s` verbs: each
`%s` consumes the next argument; other characters pass through. -/
def sprintfAux : List Char → List String → List Char
  | [], _ => []
  | '%' :: 's' :: rest, a :: as => a.data ++ sprintfAux rest as
  | c :: rest, as => c :: sprintfAux rest as

/-- Go `fmt.Sprintf` with `%s` verbs only. -/
def sprintf (f : String) (args : List String) : String :=
  String.mk (sprintfAux f.data args)

/-- One-argument `fmt.Sprintf`. -/
def sprintfS (f : String) (arg : String) : String := sprintf f [arg]

/-- Go `strings.HasPrefix` (kernel-computable form of `startsWith`). -/
def hasPrefixStr (s : String) (p : String) : Bool := p.data.isPrefixOf s.data

/-- Kernel-computable `String.intercalate`. -/
def joinSep (sep : String) : List String → String
  | [] => ""
  | [x] => x
  | x :: y :: rest => x ++ sep ++ joinSep sep (y :: rest)

/-! ### Ambient world: filesystem plus the pure external primitives -/

structure World where
  fs : FS
  /-- SHA-256 hex digest of a byte string (`crypto/sha256` + `%x`). -/
  sha256hex : String → String
  /-- Go `filepath.Rel`; `none` models its error return. -/
  rel : String → String → Option String

/-! ### Watch set (`FileTimes`).
Modelled from the spec: the Watch Set component (`file_times.go` is not
under src/): an ordered sequence of (path, modification time or a
non-existence sentinel) entries; `Update` stats the path and appends an
entry, never failing when the path is missing; `Marshal`/`Unmarshal` are a
lossless textual round trip of the sequence. -/

structure FileTime where
  path : String
  modtime : Option Nat
deriving DecidableEq, Repr

structure FileTimes where
  list : List FileTime
deriving DecidableEq, Repr

def NewFileTimes : FileTimes := ⟨[]⟩

/-- Modelled from the spec: `update(path)` stats `path` and appends an entry
recording its modification time, or a non-existence sentinel. -/
def FileTimes.Update (t : FileTimes) (fs : FS) (path : String) : FileTimes :=
  ⟨t.list ++ [⟨path, fs.mtimeOf path⟩]⟩

/-- Modelled from the spec: a lossless textual encoding of the entry
sequence (the concrete byte format of the Go code is not under src/). -/
def FileTimes.Marshal (t : FileTimes) : String :=
  joinSep ";" (t.list.map (fun e =>
    e.path ++ "|" ++ (match e.modtime with | none => "?" | some n => toString n)))

/-- Modelled from the spec: inverse direction of the textual round trip. -/
def FileTimes.Unmarshal (s : String) : FileTimes :=
  if s = "" then ⟨[]⟩
  else ⟨(s.splitOn ";").map (fun item =>
    match item.splitOn "|" with
    | [p, "?"] => ⟨p, none⟩
    | [p, n] => ⟨p, n.toNat?⟩
    | _ => ⟨item, none⟩)⟩

/-! ### Environment diff.
Modelled from the spec: the Environment Diff of the Environment Snapshot
component (`env.go` / `env_diff.go` are not under src/): an ordered
sequence of set/unset operations — every key of the new snapshot with a new
or different value gives a set, every key of the old snapshot absent from
the new one gives an unset; keys beginning with the reserved prefix
`DIRENV_` are metadata and excluded; ordering is deterministic (sorted by
key); `Serialize` is an injective textual encoding. -/

inductive DiffOp where
  | set (k : String) (v : String)
  | unset (k : String)
deriving DecidableEq, Repr

abbrev EnvDiff := List DiffOp

/-- A key carrying the system's reserved metadata prefix. -/
def reservedKey (k : String) : Bool := hasPrefixStr k "DIRENV_"

def insertSorted (x : String) : List String → List String
  | [] => [x]
  | y :: ys => if x ≤ y then x :: y :: ys else y :: insertSorted x ys

def sortKeys (l : List String) : List String := l.foldr insertSorted []

def dedupStr : List String → List String
  | [] => []
  | x :: xs => if x ∈ dedupStr xs then dedupStr xs else x :: dedupStr xs

/-- Modelled from the spec: `oldEnv.diff(newEnv)` over user-visible keys. -/
def Env.Diff (prev : Env) (next : Env) : EnvDiff :=
  let ks := sortKeys (dedupStr (((Env.keys prev ++ Env.keys next).filter
    (fun k => !(reservedKey k)))))
  ks.filterMap (fun k =>
    match Env.get prev k, Env.get next k with
    | some v, some v2 => if v = v2 then none else some (DiffOp.set k v2)
    | none, some v2 => some (DiffOp.set k v2)
    | some _, none => some (DiffOp.unset k)
    | none, none => none)

/-- Modelled from the spec: serialization of a diff into one transportable
string. -/
def EnvDiff.Serialize (d : EnvDiff) : String :=
  joinSep ";" (d.map (fun op =>
    match op with
    | DiffOp.set k v => "+" ++ k ++ "=" ++ v
    | DiffOp.unset k => "-" ++ k))

/-! ### Process configuration (`Config`, fields used by this code) -/

structure Config where
  workDir : String
  selfPath : String
  bashPath : String
  disableStdin : Bool
  /-- `config.AllowDir()`. -/
  allowDir : String
  /-- `config.WhitelistExact` (a set of absolute paths). -/
  whitelistExact : List String
  /-- the whitelist of path prefixes from the Go config (a string slice). -/
  whitelistPref : List String
deriving DecidableEq, Repr

/-! ### Reserved environment keys -/

def DIRENV_DIR : String := "DIRENV_DIR"
def DIRENV_WATCHES : String := "DIRENV_WATCHES"
def DIRENV_DIFF : String := "DIRENV_DIFF"

/-! ### The RC (Configuration Unit) and its operations -/

structure RC where
  path : String
  allowPath : String
  times : FileTimes
  config : Config
deriving DecidableEq

/-- `fileHash(path)`: absolutize the path, open and read the file, and hash
`absolutePath + "\n" + contents`. -/
def fileHash (w : World) (path : String) : Option String :=
  match filepathAbs w.fs path with
  | none => none
  | some p =>
    match FS.readFile w.fs p with
    | none => none
    | some contents => some (w.sha256hex (p ++ "\n" ++ contents))

def fileExists (fs : FS) (path : String) : Bool := fs.statOk path

/-- The loop body of `eachDir`: scan character index `i` downwards; at each
`/` truncate the path there (an empty truncation becomes `/`) and record
it. -/
def eachDirGo : Nat → List Char → List (List Char)
  | 0, path => if path.head? = some '/' then [['/']] else []
  | j + 1, path =>
    if path.get? (j + 1) = some '/' then
      path.take (j + 1) :: eachDirGo j (path.take (j + 1))
    else
      eachDirGo j path

/-- `eachDir(path)`: the absolutized path followed by each of its ancestor
directories, nearest first, ending at `/`. -/
def eachDir (fs : FS) (path : String) : List String :=
  match filepathAbs fs path with
  | none => []
  | some p =>
    if p = "/" then [p]
    else p :: (eachDirGo (p.data.length - 1) p.data).map (fun l => String.mk l)

/-- The loop of `findUp` over the directory list. -/
def findUpGo (fs : FS) (fileName : String) : List String → String
  | [] => ""
  | dir :: rest =>
    let p := filepathJoin dir fileName
    if fileExists fs p then p else findUpGo fs fileName rest

def findUp (fs : FS) (searchDir : String) (fileName : String) : String :=
  findUpGo fs fileName (eachDir fs searchDir)

def RCFromPath (w : World) (path : String) (config : Config) : Option RC :=
  match fileHash w path with
  | none => none
  | some hash =>
    let allowPath := filepathJoin config.allowDir hash
    let times := FileTimes.Update (FileTimes.Update NewFileTimes w.fs path) w.fs allowPath
    some ⟨path, allowPath, times, config⟩

def FindRC (w : World) (wd : String) (config : Config) : Option RC :=
  let rcPath := findUp w.fs wd ".envrc"
  if rcPath = "" then none else RCFromPath w rcPath config

def RCFromEnv (path : String) (marshalled_times : String) (config : Config) : RC :=
  ⟨path, "", FileTimes.Unmarshal marshalled_times, config⟩

/-- The `allow` helper: write the allow record (the trusted path plus a
newline) at the record path. -/
def allow (fs : FS) (path : String) (allowPath : String) : FS :=
  FS.writeFile fs allowPath (path ++ "\n")

/-- `RC.Allow`: refuse an empty record path, create the record directory
(directory creation cannot fail in this filesystem model), write the
record, and re-stat it into the watch set. -/
def RC.Allow (rc : RC) (w : World) : Except String (RC × World) :=
  if rc.allowPath = "" then Except.error "cannot allow empty path"
  else
    let fs1 := allow w.fs rc.path rc.allowPath
    Except.ok ({ rc with times := FileTimes.Update rc.times fs1 rc.allowPath },
               { w with fs := fs1 })

/-- `RC.Deny`: `os.Remove(rc.allowPath)`, failing when no entry exists. -/
def RC.Deny (rc : RC) (w : World) : Except String World :=
  if FS.existsRaw w.fs rc.allowPath then
    Except.ok { w with fs := FS.removeFile w.fs rc.allowPath }
  else
    Except.error ("remove " ++ rc.allowPath ++ ": no such file or directory")

/-- `RC.Allowed`: allow-record stat fast path, then the whitelist rules
against the `filepath.Abs`-normalized (lexical, unresolved) path. -/
def RC.Allowed (rc : RC) (w : World) : Bool :=
  if FS.statOk w.fs rc.allowPath then true
  else
    match filepathAbs w.fs rc.path with
    | none => false
    | some path =>
      if rc.config.whitelistExact.contains path then true
      else rc.config.whitelistPref.any (fun q => hasPrefixStr path q)

/-- `rootDir`: the first path segment of the absolutized path (`/home/foo`
gives `/home`; `/foo` gives `/foo`); `none` models the panic on an `Abs`
failure. -/
def rootDir (fs : FS) (path : String) : Option String :=
  match filepathAbs fs path with
  | none => none
  | some p =>
    match (p.data.drop 1).findIdx? (fun c => c = '/') with
    | none => some p
    | some i => some (String.mk (p.data.take (i + 1)))

/-- `RC.RelTo`: the display path of the configuration file relative to the
working directory, or absolute across different roots; `none` models a
panic (from `rootDir` or `filepath.Rel`). -/
def RC.RelTo (rc : RC) (w : World) (wd : String) : Option String :=
  match rootDir w.fs wd, rootDir w.fs rc.path with
  | some rw, some rp =>
    if rw ≠ rp then some rc.path else w.rel wd rc.path
  | _, _ => none

def NOT_ALLOWED : String := "%s is blocked. Run `direnv allow` to approve its content"

/-- `RC.RecordState` (the deferred metadata recording): overwrite the
directory marker, then the serialized diff of old against new. -/
def RC.RecordState (rc : RC) (env : Env) (newEnv : Env) : Env :=
  let e1 := Env.set newEnv DIRENV_DIR ("-" ++ filepathDir rc.path)
  Env.set e1 DIRENV_DIFF (EnvDiff.Serialize (Env.Diff env e1))

def argtmpl : String :=
  "eval \"$(\"%s\" stdlib)\" >&2 && source_env \"%s\" >&2 && \"%s\" dump"

/-- `RC.Load`.  `run` is the subprocess execution
(`exec.Command(bashPath, "--noprofile", "--norc", "-c", arg)` with the
given environment, working directory and stdin disposition; `Except.ok` is
the captured standard output of a successful run); `loadEnvF` is the gzenv
decoder `LoadEnv`.  The result is `none` when the Go code panics (RelTo),
otherwise `some (newEnv, err)` mirroring the named return values; the
deferred `RecordState(env, newEnv)` is applied to `newEnv` on every exit
path. -/
def RC.Load (rc : RC) (w : World)
    (run : List String → List String → String → Bool → Except String String)
    (loadEnvF : String → Except String Env)
    (config : Config) (env : Env) : Option (Env × Option String) :=
  let wd := config.workDir
  let direnv := config.selfPath
  let newEnv := Env.set env DIRENV_WATCHES (FileTimes.Marshal rc.times)
  if RC.Allowed rc w = true then
    match RC.RelTo rc w wd with
    | none => none
    | some r =>
      let arg := sprintf argtmpl [direnv, r, direnv]
      let stdinRes : Except String Bool :=
        if config.disableStdin = true then
          if FS.statOk w.fs "/dev/null" = true then Except.ok true
          else Except.error "open /dev/null: no such file or directory"
        else Except.ok false
      match stdinRes with
      | Except.error e => some (RC.RecordState rc env newEnv, some e)
      | Except.ok stdinNull =>
        match run [config.bashPath, "--noprofile", "--norc", "-c", arg]
            (Env.ToGoEnv newEnv) wd stdinNull with
        | Except.error e => some (RC.RecordState rc env newEnv, some e)
        | Except.ok out =>
          match loadEnvF out with
          | Except.error e => some (RC.RecordState rc env newEnv, some e)
          | Except.ok newEnv2 => some (RC.RecordState rc env newEnv2, none)
  else
    match RC.RelTo rc w wd with
    | none => none
    | some r => some (RC.RecordState rc env newEnv, some (sprintfS NOT_ALLOWED r))

/-! ### The `dump` command -/

/-- The base-10 digit loop of `strconv.ParseUint`. -/
def parseDigits : List Char → Nat → Option Nat
  | [], acc => some acc
  | c :: rest, acc =>
    if '0' ≤ c ∧ c ≤ '9' then parseDigits rest (acc * 10 + (c.toNat - '0'.toNat))
    else none

/-- Go `strconv.ParseUint(s, 10, 32)`: nonempty all-digit strings whose
value fits in 32 bits. -/
def parseUint32 (s : String) : Option Nat :=
  if s = "" then none
  else
    match parseDigits s.data 0 with
    | none => none
    | some n => if n < 4294967296 then some n else none

inductive OutDest where
  | stdout
  | fd (n : Nat)
deriving DecidableEq, Repr

/-- Modelled from the spec: `DetectShell` (the Shell Adapter dispatch of
`shell.go`, not under src/): a closed table of dialect identifiers mapping
to dump functions; an unknown identifier yields `none`. -/
def DetectShell (shells : List (String × (Env → String))) (target : String) :
    Option (Env → String) :=
  lookupAssoc shells target

/-- `CmdDump`: target dialect defaults to `gzenv`, output defaults to
standard output; an explicit third argument is parsed as a file descriptor
number (`os.NewFile` on a parsed `uint32` is never nil); an unknown target
fails before anything is written.  The successful result is the
destination and the string written to it. -/
def CmdDump (shells : List (String × (Env → String))) (env : Env)
    (args : List String) : Except String (OutDest × String) :=
  let target := (args.get? 1).getD "gzenv"
  let outE : Except String OutDest :=
    match args.get? 2 with
    | none => Except.ok OutDest.stdout
    | some s =>
      match parseUint32 s with
      | none => Except.error ("strconv.ParseUint: parsing " ++ s ++ ": invalid syntax")
      | some n => Except.ok (OutDest.fd n)
  match outE with
  | Except.error e => Except.error e
  | Except.ok out =>
    match DetectShell shells target with
    | none => Except.error (sprintfS "unknown target shell '%s'" target)
    | some shell => Except.ok (out, shell env)

/-! ### Reference description of the ancestor walk (for the `eachDir` and
`findUp` characterization).  A clean absolute path is described by its list
of segments, innermost segment first. -/

/-- A legal path segment: nonempty and slash-free. -/
def ValidSeg (s : String) : Prop := s ≠ "" ∧ '/' ∉ s.data

instance instDecidableValidSeg (s : String) : Decidable (ValidSeg s) :=
  inferInstanceAs (Decidable (s ≠ "" ∧ '/' ∉ s.data))

/-- The clean absolute path whose segments, innermost first, are the given
list (`["b", "a"]` gives `/a/b`; `[]` gives `/`). -/
def mkAbsPathR : List String → String
  | [] => "/"
  | s :: rest => (match rest with | [] => "" | _ :: _ => mkAbsPathR rest) ++ "/" ++ s

/-- The full ancestor chain of a path given by innermost-first segments:
the path itself, then each ancestor directory nearest first, ending at the
filesystem root `/`. -/
def ancestorsR : List String → List String
  | [] => ["/"]
  | s :: rest => mkAbsPathR (s :: rest) :: ancestorsR rest

/-! ### Concrete instances used by the closed evaluation theorems -/

/-- A concrete stand-in for the SHA-256 hex primitive in closed examples. -/
def hashFn : String → String := fun s => "#" ++ s

/-- A `filepath.Rel` stand-in that always fails (never reached in the
examples that use it). -/
def relNone : String → String → Option String := fun _ _ => none

def cfgA : Config :=
  { workDir := "/w", selfPath := "/bin/direnv", bashPath := "/bin/bash",
    disableStdin := false, allowDir := "/allow",
    whitelistExact := [], whitelistPref := [] }

def envA : Env := [("HOME", "/home/u")]

def runOk : List String → List String → String → Bool → Except String String :=
  fun _ _ _ _ => Except.ok "OUT"

def loadEnvEmpty : String → Except String Env := fun _ => Except.ok []

/-- C1 scenario: `/trusted/.envrc` is a symlink to `/evil/.envrc`; the
whitelist trusts the prefix `/trusted`; no allow record exists. -/
def fs1 : FS :=
  { files := [("/evil/.envrc", "payload")],
    symlinks := [("/trusted/.envrc", "/evil/.envrc")],
    unreadable := [], mtimes := [], wd := some "/trusted" }

def w1 : World := { fs := fs1, sha256hex := hashFn, rel := relNone }

def cfg1 : Config :=
  { workDir := "/trusted", selfPath := "/bin/direnv", bashPath := "/bin/bash",
    disableStdin := false, allowDir := "/allow",
    whitelistExact := [], whitelistPref := ["/trusted"] }

/-- Blocked-load scenario: an `.envrc` is present but has no allow record
and no whitelist rule. -/
def fsB : FS :=
  { files := [("/p/.envrc", "export FOO=bar")], symlinks := [],
    unreadable := [], mtimes := [], wd := some "/w" }

def wB : World := { fs := fsB, sha256hex := hashFn, rel := relNone }

def rcB : RC := { path := "/p/.envrc", allowPath := "/allow/h", times := NewFileTimes, config := cfgA }

/-- Successful-load scenario: an allow record exists for `rcC`. -/
def fsC : FS :=
  { files := [("/p/.envrc", "export FOO=bar"), ("/allow/ok", "/p/.envrc\n")],
    symlinks := [], unreadable := [], mtimes := [], wd := some "/w" }

def wC : World := { fs := fsC, sha256hex := hashFn, rel := relNone }

def rcC : RC := { path := "/p/.envrc", allowPath := "/allow/ok", times := NewFileTimes, config := cfgA }

/-- The environment `RC.Load` returns in the successful-load scenario when
the decoded subprocess output is the empty snapshot. -/
def c3Out : Env := RC.RecordState rcC envA []

/-- Allow/deny scenario: a readable configuration file and no records. -/
def fs4 : FS :=
  { files := [("/p/.envrc", "CONTENT")], symlinks := [],
    unreadable := [], mtimes := [], wd := some "/w" }

def w4 : World := { fs := fs4, sha256hex := hashFn, rel := relNone }

def rc4 : RC :=
  { path := "/p/.envrc",
    allowPath := "/allow/#/p/.envrc\nCONTENT",
    times := ⟨[⟨"/p/.envrc", none⟩, ⟨"/allow/#/p/.envrc\nCONTENT", none⟩]⟩,
    config := cfgA }

/-- The RC and world after a successful `rc4.Allow`. -/
def rc4b : RC :=
  { rc4 with times := FileTimes.Update rc4.times (allow w4.fs rc4.path rc4.allowPath) rc4.allowPath }

def w4b : World := { w4 with fs := allow w4.fs rc4.path rc4.allowPath }

/-- The world after a subsequent successful `Deny`. -/
def w4c : World := { w4b with fs := FS.removeFile w4b.fs rc4.allowPath }

/-- Ancestor-walk scenario: `/a/.envrc` exists, `/a/b` is the start
directory. -/
def fs7 : FS :=
  { files := [("/a/.envrc", "x")], symlinks := [],
    unreadable := [], mtimes := [], wd := some "/" }

/-- Shell dialect table for the `dump` command examples. -/
def shells0 : List (String × (Env → String)) :=
  [("gzenv", fun _ => "GZDUMP"), ("json", fun _ => "JDUMP")]

/-- Whitelisted configuration for the reconstructed-RC example. -/
def cfg9 : Config := { cfgA with whitelistExact := ["/p/.envrc"] }

/-- Unreadable-file scenario: `/w/.envrc` stats fine but cannot be read. -/
def fs10 : FS :=
  { files := [("/w/.envrc", "secret")], symlinks := [],
    unreadable := ["/w/.envrc"], mtimes := [], wd := some "/w" }

def w10 : World := { fs := fs10, sha256hex := hashFn, rel := relNone }

/-- The RC that `RCFromPath` constructs in the C1 symlink scenario. -/
def rc1 : RC :=
  { path := "/trusted/.envrc",
    allowPath := "/allow/#/trusted/.envrc\npayload",
    times := ⟨[⟨"/trusted/.envrc", none⟩, ⟨"/allow/#/trusted/.envrc\npayload", none⟩]⟩,
    config := cfg1 }

/-- The environment returned by every error exit of `RC.Load` in the
blocked scenario. -/
def blockedOut : Env :=
  RC.RecordState rcB envA (Env.set envA DIRENV_WATCHES (FileTimes.Marshal rcB.times))

/-! ## Lemmas -/

theorem lookupAssoc_removeAssoc_ne {α : Type} (l : List (String × α)) (k k2 : String)
    (h : k2 ≠ k) : lookupAssoc (removeAssoc l k) k2 = lookupAssoc l k2 := by
  induction l with
  | nil => rfl
  | cons hd tl ih =>
    obtain ⟨a, b⟩ := hd
    by_cases hak : a = k
    · simp only [removeAssoc, if_pos hak, lookupAssoc, ih]
      rw [if_neg (by rw [hak]; exact h)]
    · simp only [removeAssoc, if_neg hak, lookupAssoc, ih]

theorem lookupAssoc_removeAssoc_self {α : Type} (l : List (String × α)) (k : String) :
    lookupAssoc (removeAssoc l k) k = none := by
  induction l with
  | nil => rfl
  | cons hd tl ih =>
    obtain ⟨a, b⟩ := hd
    by_cases hak : a = k
    · simp only [removeAssoc, if_pos hak, ih]
    · simp only [removeAssoc, if_neg hak, lookupAssoc, ih]
      rw [if_neg (fun hk => hak hk.symm)]

theorem Env.get_set_same (e : Env) (k v : String) :
    Env.get (Env.set e k v) k = some v := by
  simp [Env.get, Env.set, lookupAssoc]

theorem Env.get_set_ne (e : Env) (k v k2 : String) (h : k2 ≠ k) :
    Env.get (Env.set e k v) k2 = Env.get e k2 := by
  simp only [Env.get, Env.set, lookupAssoc, if_neg h]
  exact lookupAssoc_removeAssoc_ne e k k2 h

/-- Two keys differ when exactly one carries the reserved prefix. -/
theorem ne_of_reservedKey {k c : String} (hk : reservedKey k = false)
    (hc : reservedKey c = true) : k ≠ c := by
  intro h
  rw [h, hc] at hk
  cases hk

theorem mem_insertSorted {x a : String} {l : List String}
    (h : x ∈ insertSorted a l) : x = a ∨ x ∈ l := by
  induction l with
  | nil => simpa [insertSorted] using h
  | cons y ys ih =>
    by_cases hle : a ≤ y
    · simpa [insertSorted, hle] using h
    · simp only [insertSorted, if_neg hle, List.mem_cons] at h
      rcases h with h | h
      · exact Or.inr (by simp [h])
      · rcases ih h with h2 | h2
        · exact Or.inl h2
        · exact Or.inr (List.mem_cons_of_mem _ h2)

theorem mem_sortKeys {x : String} {l : List String} (h : x ∈ sortKeys l) : x ∈ l := by
  induction l with
  | nil => simp [sortKeys] at h
  | cons y ys ih =>
    simp only [sortKeys, List.foldr] at h
    rcases mem_insertSorted h with h2 | h2
    · simp [h2]
    · exact List.mem_cons_of_mem _ (ih h2)

theorem mem_dedupStr {x : String} {l : List String} (h : x ∈ dedupStr l) : x ∈ l := by
  induction l with
  | nil => simp [dedupStr] at h
  | cons y ys ih =>
    by_cases hm : y ∈ dedupStr ys
    · simp only [dedupStr, if_pos hm] at h
      exact List.mem_cons_of_mem _ (ih h)
    · simp only [dedupStr, if_neg hm, List.mem_cons] at h
      rcases h with h | h
      · simp [h]
      · exact List.mem_cons_of_mem _ (ih h)

theorem filterMap_congr_mem {α β : Type} {l : List α} {f g : α → Option β}
    (h : ∀ x ∈ l, f x = g x) : l.filterMap f = l.filterMap g := by
  induction l with
  | nil => rfl
  | cons y ys ih =>
    simp only [List.filterMap_cons, h y (List.mem_cons_self y ys)]
    rw [ih (fun x hx => h x (List.mem_cons_of_mem _ hx))]

/-- Removing a reserved-prefixed key leaves the user-visible key list
unchanged. -/
theorem filter_keys_eraseKey (e : Env) (k : String) (hk : reservedKey k = true) :
    (Env.keys (Env.eraseKey e k)).filter (fun x => !(reservedKey x)) =
      (Env.keys e).filter (fun x => !(reservedKey x)) := by
  induction e with
  | nil => rfl
  | cons hd tl ih =>
    obtain ⟨a, b⟩ := hd
    by_cases hak : a = k
    · simp only [Env.eraseKey, removeAssoc, if_pos hak] at *
      simp only [Env.keys, List.map_cons, List.filter_cons]
      rw [hak, hk]
      simpa [Env.eraseKey, Env.keys] using ih
    · simp only [Env.eraseKey, removeAssoc, if_neg hak] at *
      simp only [Env.keys, List.map_cons, List.filter_cons]
      by_cases hr : reservedKey a
      · simp only [hr]
        simpa [Env.eraseKey, Env.keys] using ih
      · simp only [Bool.not_eq_true] at hr
        simp only [hr]
        simp only [Bool.not_false, if_pos rfl]
        have := ih
        simp only [Env.eraseKey, Env.keys] at this
        rw [this]

/-- Setting a reserved-prefixed key leaves the user-visible key list
unchanged. -/
theorem filter_keys_set (e : Env) (k v : String) (hk : reservedKey k = true) :
    (Env.keys (Env.set e k v)).filter (fun x => !(reservedKey x)) =
      (Env.keys e).filter (fun x => !(reservedKey x)) := by
  simp only [Env.set, Env.keys, List.map_cons, List.filter_cons, hk]
  simpa [Env.keys] using filter_keys_eraseKey e k hk

/-- The diff ignores assignments to reserved-prefixed keys on the new
side. -/
theorem diff_set_reserved (p e : Env) (k v : String) (hk : reservedKey k = true) :
    Env.Diff p (Env.set e k v) = Env.Diff p e := by
  unfold Env.Diff
  have hkeys : (Env.keys p ++ Env.keys (Env.set e k v)).filter (fun x => !(reservedKey x)) =
      (Env.keys p ++ Env.keys e).filter (fun x => !(reservedKey x)) := by
    rw [List.filter_append, List.filter_append, filter_keys_set e k v hk]
  rw [hkeys]
  apply filterMap_congr_mem
  intro x hx
  have hxmem := mem_sortKeys hx
  have hxmem2 := mem_dedupStr hxmem
  have hxres : (!(reservedKey x)) = true := (List.mem_filter.mp hxmem2).2
  have hxk : x ≠ k := ne_of_reservedKey (by simpa using hxres) hk
  rw [Env.get_set_ne e k v x hxk]

theorem recordState_dir (rc : RC) (env base : Env) :
    Env.get (RC.RecordState rc env base) DIRENV_DIR =
      some ("-" ++ filepathDir rc.path) := by
  unfold RC.RecordState
  rw [Env.get_set_ne _ _ _ _ (by decide), Env.get_set_same]

theorem recordState_diff (rc : RC) (env base : Env) :
    Env.get (RC.RecordState rc env base) DIRENV_DIFF =
      some (EnvDiff.Serialize (Env.Diff env (RC.RecordState rc env base))) := by
  unfold RC.RecordState
  rw [Env.get_set_same]
  rw [diff_set_reserved env _ DIRENV_DIFF _ (by decide)]

theorem recordState_watches (rc : RC) (env : Env) (m : String) :
    Env.get (RC.RecordState rc env (Env.set env DIRENV_WATCHES m)) DIRENV_WATCHES =
      some m := by
  unfold RC.RecordState
  rw [Env.get_set_ne _ _ _ _ (by decide), Env.get_set_ne _ _ _ _ (by decide),
    Env.get_set_same]

theorem recordState_other (rc : RC) (env base : Env) (k : String)
    (hdir : k ≠ DIRENV_DIR) (hdiff : k ≠ DIRENV_DIFF) :
    Env.get (RC.RecordState rc env base) k = Env.get base k := by
  unfold RC.RecordState
  rw [Env.get_set_ne _ _ _ _ hdiff, Env.get_set_ne _ _ _ _ hdir]

/-- Case analysis on the exit paths of `RC.Load`: whatever is returned went
through the deferred `RecordState`, and on every error return the base
environment is the copy of `env` stamped with the marshalled watch set. -/
theorem load_result (rc : RC) (w : World)
    (run : List String → List String → String → Bool → Except String String)
    (loadEnvF : String → Except String Env)
    (config : Config) (env env2 : Env) (e : Option String)
    (hl : RC.Load rc w run loadEnvF config env = some (env2, e)) :
    ∃ base, env2 = RC.RecordState rc env base ∧
      (e.isSome = true →
        base = Env.set env DIRENV_WATCHES (FileTimes.Marshal rc.times)) := by
  unfold RC.Load at hl
  by_cases hall : RC.Allowed rc w = true
  · rw [if_pos hall] at hl
    cases hrel : RC.RelTo rc w config.workDir with
    | none => rw [hrel] at hl; cases hl
    | some r =>
      rw [hrel] at hl
      simp only at hl
      by_cases hstdin : config.disableStdin = true
      · rw [if_pos hstdin] at hl
        by_cases hnull : FS.statOk w.fs "/dev/null" = true
        · rw [if_pos hnull] at hl
          dsimp only at hl
          cases hrun : run [config.bashPath, "--noprofile", "--norc", "-c",
              sprintf argtmpl [config.selfPath, r, config.selfPath]]
              (Env.ToGoEnv (Env.set env DIRENV_WATCHES (FileTimes.Marshal rc.times)))
              config.workDir true with
          | error msg =>
            rw [hrun] at hl
            simp only [Option.some.injEq, Prod.mk.injEq] at hl
            exact ⟨_, hl.1.symm, fun _ => rfl⟩
          | ok out =>
            rw [hrun] at hl
            dsimp only at hl
            cases hdec : loadEnvF out with
            | error msg =>
              rw [hdec] at hl
              simp only [Option.some.injEq, Prod.mk.injEq] at hl
              exact ⟨_, hl.1.symm, fun _ => rfl⟩
            | ok newEnv2 =>
              rw [hdec] at hl
              simp only [Option.some.injEq, Prod.mk.injEq] at hl
              refine ⟨newEnv2, hl.1.symm, fun hs => ?_⟩
              rw [← hl.2] at hs
              cases hs
        · rw [if_neg hnull] at hl
          simp only [Option.some.injEq, Prod.mk.injEq] at hl
          exact ⟨_, hl.1.symm, fun _ => rfl⟩
      · rw [if_neg hstdin] at hl
        dsimp only at hl
        cases hrun : run [config.bashPath, "--noprofile", "--norc", "-c",
            sprintf argtmpl [config.selfPath, r, config.selfPath]]
            (Env.ToGoEnv (Env.set env DIRENV_WATCHES (FileTimes.Marshal rc.times)))
            config.workDir false with
        | error msg =>
          rw [hrun] at hl
          simp only [Option.some.injEq, Prod.mk.injEq] at hl
          exact ⟨_, hl.1.symm, fun _ => rfl⟩
        | ok out =>
          rw [hrun] at hl
          dsimp only at hl
          cases hdec : loadEnvF out with
          | error msg =>
            rw [hdec] at hl
            simp only [Option.some.injEq, Prod.mk.injEq] at hl
            exact ⟨_, hl.1.symm, fun _ => rfl⟩
          | ok newEnv2 =>
            rw [hdec] at hl
            simp only [Option.some.injEq, Prod.mk.injEq] at hl
            refine ⟨newEnv2, hl.1.symm, fun hs => ?_⟩
            rw [← hl.2] at hs
            cases hs
  · rw [if_neg hall] at hl
    cases hrel : RC.RelTo rc w config.workDir with
    | none => rw [hrel] at hl; cases hl
    | some r =>
      rw [hrel] at hl
      simp only [Option.some.injEq, Prod.mk.injEq] at hl
      exact ⟨_, hl.1.symm, fun _ => rfl⟩

/-! ## Claim theorems -/

/-- Claim C2: whenever `RC.Load` returns an error (blocked, stdin setup
failure, subprocess failure, or decode failure), the environment it
returns agrees with the starting environment on every user-visible key
(every key without the reserved `DIRENV_` prefix): no partial environment
change is applied. -/
theorem c2_load_error_preserves_user_env (rc : RC) (w : World)
    (run : List String → List String → String → Bool → Except String String)
    (loadEnvF : String → Except String Env)
    (config : Config) (env env2 : Env) (msg : String) (k : String)
    (hload : RC.Load rc w run loadEnvF config env = some (env2, some msg))
    (hk : reservedKey k = false) :
    Env.get env2 k = Env.get env k := by
  obtain ⟨base, hbase, hwatch⟩ :=
    load_result rc w run loadEnvF config env env2 (some msg) hload
  have hb := hwatch rfl
  subst hb
  subst hbase
  have hdir : k ≠ DIRENV_DIR := ne_of_reservedKey hk (by decide)
  have hdiff : k ≠ DIRENV_DIFF := ne_of_reservedKey hk (by decide)
  have hw : k ≠ DIRENV_WATCHES := ne_of_reservedKey hk (by decide)
  rw [recordState_other rc env _ k hdir hdiff, Env.get_set_ne _ _ _ _ hw]

/-- Witness for C2: in the concrete blocked scenario, the returned
environment preserves the user-visible key `HOME`. -/
theorem c2_witness : Env.get blockedOut "HOME" = Env.get envA "HOME" :=
  c2_load_error_preserves_user_env rcB wB runOk loadEnvEmpty cfgA envA
    blockedOut (sprintfS NOT_ALLOWED "/p/.envrc") "HOME" rfl rfl

/-- Counterexample to claim C3 as stated: on the successful exit path of
`RC.Load`, the returned environment is exactly the decoded subprocess
snapshot (plus the deferred dir/diff markers); its watch-metadata key is
NOT re-stamped with the marshalled watch set — here the decoded snapshot
is empty and the key is absent entirely. -/
theorem c3_counterexample :
    RC.Load rcC wC runOk loadEnvEmpty cfgA envA = some (c3Out, none) ∧
    Env.get c3Out DIRENV_WATCHES ≠ some (FileTimes.Marshal rcC.times) :=
  ⟨rfl, by decide⟩

/-- Claim C3 (amended): on every exit of `RC.Load` the returned environment
carries the directory marker `"-" ++ dir(rc.path)` and the diff marker
`serialize(env.Diff(returned env))`; the watch-metadata key is stamped with
the marshalled watch set on every error exit (on success it is whatever
the decoded snapshot carries). -/
theorem c3_metadata_on_every_exit (rc : RC) (w : World)
    (run : List String → List String → String → Bool → Except String String)
    (loadEnvF : String → Except String Env)
    (config : Config) (env env2 : Env) (e : Option String)
    (hload : RC.Load rc w run loadEnvF config env = some (env2, e)) :
    Env.get env2 DIRENV_DIR = some ("-" ++ filepathDir rc.path) ∧
    Env.get env2 DIRENV_DIFF = some (EnvDiff.Serialize (Env.Diff env env2)) ∧
    (e.isSome = true →
      Env.get env2 DIRENV_WATCHES = some (FileTimes.Marshal rc.times)) := by
  obtain ⟨base, hbase, hwatch⟩ :=
    load_result rc w run loadEnvF config env env2 e hload
  subst hbase
  refine ⟨recordState_dir rc env base, recordState_diff rc env base, fun hs => ?_⟩
  rw [hwatch hs]
  exact recordState_watches rc env (FileTimes.Marshal rc.times)

/-- Witness for the amended C3: the blocked scenario exercises an error
exit, where all three metadata keys are as stated. -/
theorem c3_witness :
    Env.get blockedOut DIRENV_DIR = some ("-" ++ filepathDir rcB.path) ∧
    Env.get blockedOut DIRENV_DIFF =
      some (EnvDiff.Serialize (Env.Diff envA blockedOut)) ∧
    ((some (sprintfS NOT_ALLOWED "/p/.envrc")).isSome = true →
      Env.get blockedOut DIRENV_WATCHES = some (FileTimes.Marshal rcB.times)) :=
  c3_metadata_on_every_exit rcB wB runOk loadEnvEmpty cfgA envA
    blockedOut (some (sprintfS NOT_ALLOWED "/p/.envrc")) rfl

/-- Claim C6: when the RC is not allowed, `RC.Load` fails with the Blocked
error, whose message is the `NOT_ALLOWED` format instantiated with
`RelTo(workDir)` — naming the relative display path and the `direnv allow`
remediation — and the result does not depend on the subprocess runner or
the decoder: no subprocess is consulted. -/
theorem c6_blocked_no_spawn (rc : RC) (w : World)
    (run1 run2 : List String → List String → String → Bool → Except String String)
    (le1 le2 : String → Except String Env)
    (config : Config) (env : Env) (r : String)
    (hna : RC.Allowed rc w = false)
    (hrel : RC.RelTo rc w config.workDir = some r) :
    RC.Load rc w run1 le1 config env =
      some (RC.RecordState rc env
              (Env.set env DIRENV_WATCHES (FileTimes.Marshal rc.times)),
            some (sprintfS NOT_ALLOWED r)) ∧
    RC.Load rc w run1 le1 config env = RC.Load rc w run2 le2 config env ∧
    sprintfS NOT_ALLOWED r =
      r ++ " is blocked. Run `direnv allow` to approve its content" := by
  have h1 : ∀ (rn : List String → List String → String → Bool → Except String String)
      (le : String → Except String Env),
      RC.Load rc w rn le config env =
        some (RC.RecordState rc env
                (Env.set env DIRENV_WATCHES (FileTimes.Marshal rc.times)),
              some (sprintfS NOT_ALLOWED r)) := by
    intro rn le
    unfold RC.Load
    rw [if_neg (by simp [hna]), hrel]
  exact ⟨h1 run1 le1, (h1 run1 le1).trans (h1 run2 le2).symm, rfl⟩

/-- Witness for C6: the concrete blocked scenario produces exactly the
Blocked message for the display path `/p/.envrc`. -/
theorem c6_witness :
    RC.Load rcB wB runOk loadEnvEmpty cfgA envA =
      some (blockedOut, some (sprintfS NOT_ALLOWED "/p/.envrc")) :=
  (c6_blocked_no_spawn rcB wB runOk runOk loadEnvEmpty loadEnvEmpty cfgA envA
    "/p/.envrc" rfl rfl).1

/-- Claim C1 evaluated at the failing input: `/trusted/.envrc` is a symlink
whose resolved target `/evil/.envrc` lies outside every whitelist entry,
and no allow record exists, yet `RC.Allowed` returns `true` — because the
code normalizes with the lexical `filepath.Abs` (which never follows
symlinks) and compares the unresolved path against the whitelist,
contradicting both the specification and the code's own comment about not
being duped by a symlink. -/
theorem c1_symlink_not_resolved_before_whitelist :
    RCFromPath w1 "/trusted/.envrc" cfg1 = some rc1 ∧
    FS.resolvePath fs1 "/trusted/.envrc" = "/evil/.envrc" ∧
    FS.statOk w1.fs rc1.allowPath = false ∧
    cfg1.whitelistExact.contains "/evil/.envrc" = false ∧
    cfg1.whitelistPref.any (fun q => hasPrefixStr "/evil/.envrc" q) = false ∧
    RC.Allowed rc1 w1 = true :=
  ⟨rfl, rfl, rfl, rfl, rfl, rfl⟩

/-- Claim C4: the allow-record path of an RC built from an absolute path is
`allowDir/hash(absolutePath + "\n" + contents)`, and a successful `Allow`
writes a record at exactly that path whose payload is the absolute path
plus a newline. -/
theorem c4_allow_record_layout (w : World) (path : String) (config : Config)
    (c : String) (rc : RC)
    (habs : path.data.head? = some '/')
    (hr : FS.readFile w.fs path = some c)
    (hrc : RCFromPath w path config = some rc) :
    rc.allowPath =
      filepathJoin config.allowDir (w.sha256hex (path ++ "\n" ++ c)) ∧
    rc.path = path ∧
    (∀ rc2 w2, RC.Allow rc w = Except.ok (rc2, w2) →
      lookupAssoc w2.fs.files rc.allowPath = some (path ++ "\n")) := by
  have habs2 : filepathAbs w.fs path = some path := by
    unfold filepathAbs
    rw [if_pos habs]
  have hfh : fileHash w path = some (w.sha256hex (path ++ "\n" ++ c)) := by
    unfold fileHash
    rw [habs2]
    dsimp only
    rw [hr]
  unfold RCFromPath at hrc
  rw [hfh] at hrc
  dsimp only at hrc
  simp only [Option.some.injEq] at hrc
  subst hrc
  refine ⟨rfl, rfl, ?_⟩
  intro rc2 w2 hal
  unfold RC.Allow at hal
  by_cases he : filepathJoin config.allowDir (w.sha256hex (path ++ "\n" ++ c)) = ""
  · rw [if_pos he] at hal
    cases hal
  · rw [if_neg he] at hal
    simp only [Except.ok.injEq, Prod.mk.injEq] at hal
    rw [← hal.2]
    simp [allow, FS.writeFile, lookupAssoc]

/-- Witness for C4: the concrete allow/deny scenario. -/
theorem c4_witness :
    rc4.allowPath =
      filepathJoin cfgA.allowDir (w4.sha256hex ("/p/.envrc" ++ "\n" ++ "CONTENT")) ∧
    lookupAssoc w4b.fs.files rc4.allowPath = some ("/p/.envrc" ++ "\n") := by
  have h := c4_allow_record_layout w4 "/p/.envrc" cfgA "CONTENT" rc4 rfl rfl rfl
  exact ⟨h.1, h.2.2 rc4b w4b rfl⟩

/-- A stat hit on the allow-record path makes `Allowed` true. -/
theorem allowed_of_record (rc : RC) (w : World)
    (h : FS.statOk w.fs rc.allowPath = true) : RC.Allowed rc w = true := by
  unfold RC.Allowed
  rw [if_pos h]

/-- Without a record and with an empty whitelist, `Allowed` is false. -/
theorem allowed_false_no_record_no_whitelist (rc : RC) (w : World)
    (h : FS.statOk w.fs rc.allowPath = false)
    (hwe : rc.config.whitelistExact = [])
    (hwp : rc.config.whitelistPref = []) : RC.Allowed rc w = false := by
  unfold RC.Allowed
  rw [if_neg (by simp [h])]
  cases habs : filepathAbs w.fs rc.path with
  | none => rfl
  | some p =>
    dsimp only
    rw [if_neg (by rw [hwe]; simp), hwp]
    rfl

/-- Claim C5: with an empty whitelist (and the record path not shadowed by
a symlink), a successful `Allow` makes `Allowed` true, and a subsequent
successful `Deny` makes `Allowed` false again. -/
theorem c5_allow_deny_roundtrip (w : World) (rc rc2 : RC) (w2 : World)
    (hwe : rc.config.whitelistExact = [])
    (hwp : rc.config.whitelistPref = [])
    (hs : lookupAssoc w.fs.symlinks rc.allowPath = none)
    (hallow : RC.Allow rc w = Except.ok (rc2, w2)) :
    RC.Allowed rc2 w2 = true ∧
    (∀ w3, RC.Deny rc2 w2 = Except.ok w3 → RC.Allowed rc2 w3 = false) := by
  unfold RC.Allow at hallow
  split at hallow
  · cases hallow
  · rename_i he
    simp only [Except.ok.injEq, Prod.mk.injEq] at hallow
    obtain ⟨hrc2, hw2⟩ := hallow
    subst hrc2
    subst hw2
    have hres1 : (allow w.fs rc.path rc.allowPath).resolvePath rc.allowPath =
        rc.allowPath := by
      unfold FS.resolvePath
      show (match lookupAssoc w.fs.symlinks rc.allowPath with
        | some target => target
        | none => rc.allowPath) = rc.allowPath
      rw [hs]
    have hstat : FS.statOk (allow w.fs rc.path rc.allowPath) rc.allowPath = true := by
      unfold FS.statOk
      rw [if_neg he, hres1]
      show (lookupAssoc ((rc.allowPath, rc.path ++ "\n") ::
        removeAssoc w.fs.files rc.allowPath) rc.allowPath).isSome = true
      simp [lookupAssoc]
    constructor
    · apply allowed_of_record
      exact hstat
    · intro w3 hd
      unfold RC.Deny at hd
      split at hd
      · simp only [Except.ok.injEq] at hd
        subst hd
        apply allowed_false_no_record_no_whitelist
        · show FS.statOk
            (FS.removeFile (allow w.fs rc.path rc.allowPath) rc.allowPath)
            rc.allowPath = false
          unfold FS.statOk
          rw [if_neg he]
          have hres2 : (FS.removeFile (allow w.fs rc.path rc.allowPath)
              rc.allowPath).resolvePath rc.allowPath = rc.allowPath := by
            unfold FS.resolvePath
            show (match lookupAssoc
                (removeAssoc (allow w.fs rc.path rc.allowPath).symlinks rc.allowPath)
                rc.allowPath with
              | some target => target
              | none => rc.allowPath) = rc.allowPath
            rw [lookupAssoc_removeAssoc_self]
          rw [hres2]
          show (lookupAssoc
            (removeAssoc (allow w.fs rc.path rc.allowPath).files rc.allowPath)
            rc.allowPath).isSome = false
          rw [lookupAssoc_removeAssoc_self]
          rfl
        · exact hwe
        · exact hwp
      · cases hd

/-- Witness for C5: the concrete allow/deny round trip. -/
theorem c5_witness : RC.Allowed rc4b w4b = true ∧ RC.Allowed rc4b w4c = false := by
  have h := c5_allow_deny_roundtrip w4 rc4 rc4b w4b rfl rfl rfl rfl
  exact ⟨h.1, h.2 w4c rfl⟩

/-- Claim C9: an RC reconstructed from the environment always has an empty
allow-record path, `Allow` on it always fails with the empty-path error,
and its trust check can only succeed through the whitelist rules. -/
theorem c9_rcfromenv_only_whitelist (path mt : String) (config : Config) (w : World) :
    (RCFromEnv path mt config).allowPath = "" ∧
    RC.Allow (RCFromEnv path mt config) w = Except.error "cannot allow empty path" ∧
    (RC.Allowed (RCFromEnv path mt config) w = true →
      ∃ p, filepathAbs w.fs path = some p ∧
        (config.whitelistExact.contains p = true ∨
         config.whitelistPref.any (fun q => hasPrefixStr p q) = true)) := by
  refine ⟨rfl, rfl, ?_⟩
  intro hall
  unfold RC.Allowed at hall
  rw [if_neg (show ¬(FS.statOk w.fs (RCFromEnv path mt config).allowPath = true) by
    show ¬(FS.statOk w.fs "" = true)
    simp [FS.statOk])] at hall
  cases habs : filepathAbs w.fs path with
  | none =>
    rw [show (RCFromEnv path mt config).path = path from rfl, habs] at hall
    cases hall
  | some p =>
    rw [show (RCFromEnv path mt config).path = path from rfl, habs] at hall
    dsimp only at hall
    by_cases hc : ((RCFromEnv path mt config).config.whitelistExact.contains p) = true
    · exact ⟨p, rfl, Or.inl hc⟩
    · rw [if_neg hc] at hall
      exact ⟨p, rfl, Or.inr hall⟩

/-- Witness for C9: a reconstructed RC whose path is exactly whitelisted is
allowed, and the whitelist is the only way it can be. -/
theorem c9_witness :
    (RCFromEnv "/p/.envrc" "" cfg9).allowPath = "" ∧
    RC.Allow (RCFromEnv "/p/.envrc" "" cfg9) wB = Except.error "cannot allow empty path" ∧
    ∃ p, filepathAbs wB.fs "/p/.envrc" = some p ∧
      (cfg9.whitelistExact.contains p = true ∨
       cfg9.whitelistPref.any (fun q => hasPrefixStr p q) = true) := by
  have h := c9_rcfromenv_only_whitelist "/p/.envrc" "" cfg9 wB
  exact ⟨h.1, h.2.1, h.2.2 rfl⟩

/-- Claim C10: whenever the configuration file cannot be hashed (absolute
path computation, open, or read fails) `RCFromPath` returns `nil` (no RC,
no error); an RC is only constructed for a file readable at construction
time; and `FindRC` returns `nil` when the located file is unreadable. -/
theorem c10_unhashable_gives_none (w : World) (config : Config) :
    (∀ path, fileHash w path = none → RCFromPath w path config = none) ∧
    (∀ path rc, RCFromPath w path config = some rc →
      ∃ p c, filepathAbs w.fs path = some p ∧ FS.readFile w.fs p = some c) ∧
    (∀ wd, findUp w.fs wd ".envrc" ≠ "" →
      fileHash w (findUp w.fs wd ".envrc") = none → FindRC w wd config = none) := by
  refine ⟨?_, ?_, ?_⟩
  · intro path hfh
    unfold RCFromPath
    rw [hfh]
  · intro path rc hrc
    unfold RCFromPath at hrc
    cases hfh : fileHash w path with
    | none => rw [hfh] at hrc; cases hrc
    | some h =>
      unfold fileHash at hfh
      cases habs : filepathAbs w.fs path with
      | none => rw [habs] at hfh; cases hfh
      | some p =>
        rw [habs] at hfh
        dsimp only at hfh
        cases hrd : FS.readFile w.fs p with
        | none => rw [hrd] at hfh; cases hfh
        | some c => exact ⟨p, c, rfl, hrd⟩
  · intro wd hne hfh
    unfold FindRC
    dsimp only
    rw [if_neg hne]
    unfold RCFromPath
    rw [hfh]

/-- Witness for C10: the unreadable-file scenario. -/
theorem c10_witness :
    findUp w10.fs "/w" ".envrc" = "/w/.envrc" ∧
    fileHash w10 "/w/.envrc" = none ∧
    RCFromPath w10 "/w/.envrc" cfgA = none ∧
    FindRC w10 "/w" cfgA = none := by
  have h := c10_unhashable_gives_none w10 cfgA
  exact ⟨rfl, rfl, h.1 "/w/.envrc" rfl, h.2.2 "/w" (by decide) rfl⟩

/-- Claim C8: the dump command defaults the target dialect to the `gzenv`
transport and the destination to standard output, honours an explicit
dialect and file-descriptor argument, writes the selected dialect's dump of
the environment, and fails with the unknown-target error (writing nothing)
on an unknown dialect identifier. -/
theorem c8_cmd_dump_dispatch (shells : List (String × (Env → String))) (env : Env) :
    (∀ args sh, args.get? 1 = none → args.get? 2 = none →
      DetectShell shells "gzenv" = some sh →
      CmdDump shells env args = Except.ok (OutDest.stdout, sh env)) ∧
    (∀ args t sh, args.get? 1 = some t → args.get? 2 = none →
      DetectShell shells t = some sh →
      CmdDump shells env args = Except.ok (OutDest.stdout, sh env)) ∧
    (∀ args t s n sh, args.get? 1 = some t → args.get? 2 = some s →
      parseUint32 s = some n → DetectShell shells t = some sh →
      CmdDump shells env args = Except.ok (OutDest.fd n, sh env)) ∧
    (∀ args t, args.get? 1 = some t → DetectShell shells t = none →
      (args.get? 2 = none →
        CmdDump shells env args =
          Except.error ("unknown target shell '" ++ t ++ "'")) ∧
      (∀ s n, args.get? 2 = some s → parseUint32 s = some n →
        CmdDump shells env args =
          Except.error ("unknown target shell '" ++ t ++ "'"))) ∧
    (∀ args s, args.get? 2 = some s → parseUint32 s = none →
      CmdDump shells env args =
        Except.error ("strconv.ParseUint: parsing " ++ s ++ ": invalid syntax")) := by
  refine ⟨?_, ?_, ?_, ?_, ?_⟩
  · intro args sh h1 h2 hdet
    unfold CmdDump
    rw [h1, h2]
    dsimp only [Option.getD]
    rw [hdet]
  · intro args t sh h1 h2 hdet
    unfold CmdDump
    rw [h1, h2]
    dsimp only [Option.getD]
    rw [hdet]
  · intro args t s n sh h1 h2 hp hdet
    unfold CmdDump
    rw [h1, h2]
    dsimp only [Option.getD]
    rw [hp]
    dsimp only
    rw [hdet]
  · intro args t h1 hdet
    constructor
    · intro h2
      unfold CmdDump
      rw [h1, h2]
      dsimp only [Option.getD]
      rw [hdet]
      rfl
    · intro s n h2 hp
      unfold CmdDump
      rw [h1, h2]
      dsimp only [Option.getD]
      rw [hp]
      dsimp only
      rw [hdet]
      rfl
  · intro args s h2 hp
    unfold CmdDump
    rw [h2]
    dsimp only [Option.getD]
    rw [hp]

/-- Witness for C8: default dispatch, explicit dialect and fd, and the
unknown-target failure on the concrete shell table. -/
theorem c8_witness :
    CmdDump shells0 envA ["dump"] = Except.ok (OutDest.stdout, "GZDUMP") ∧
    CmdDump shells0 envA ["dump", "json", "7"] = Except.ok (OutDest.fd 7, "JDUMP") ∧
    CmdDump shells0 envA ["dump", "nope"] =
      Except.error ("unknown target shell '" ++ "nope" ++ "'") := by
  have h := c8_cmd_dump_dispatch shells0 envA
  exact ⟨h.1 ["dump"] (fun _ => "GZDUMP") rfl rfl rfl,
    h.2.2.1 ["dump", "json", "7"] "json" "7" 7 (fun _ => "JDUMP") rfl rfl rfl rfl,
    (h.2.2.2.1 ["dump", "nope"] "nope" rfl rfl).1 rfl⟩

/-! ### The `eachDir`/`findUp` ancestor-walk characterization (C7) -/

theorem data_ne_nil_of_ne_empty (s : String) (h : s ≠ "") : s.data ≠ [] := by
  intro hd
  apply h
  cases s
  simp only at hd
  rw [hd]

theorem mkAbsPathR_data_single (st : String) :
    (mkAbsPathR [st]).data = '/' :: st.data := by
  show (("" ++ "/" ++ st)).data = '/' :: st.data
  simp [String.data_append]

theorem mkAbsPathR_data_cons (st r2 : String) (rest2 : List String) :
    (mkAbsPathR (st :: r2 :: rest2)).data =
      (mkAbsPathR (r2 :: rest2)).data ++ '/' :: st.data := by
  show ((mkAbsPathR (r2 :: rest2) ++ "/" ++ st)).data = _
  simp [String.data_append]

theorem mkAbsPathR_head (r : List String) :
    (mkAbsPathR r).data.head? = some '/' := by
  induction r with
  | nil => rfl
  | cons st rest ih =>
    cases rest with
    | nil => rw [mkAbsPathR_data_single]; rfl
    | cons r2 rest2 =>
      rw [mkAbsPathR_data_cons]
      cases hdata : (mkAbsPathR (r2 :: rest2)).data with
      | nil => rw [hdata] at ih; cases ih
      | cons c cs =>
        rw [hdata] at ih
        simp only [List.head?] at ih
        simp only [List.cons_append, List.head?]
        exact ih

theorem mkAbsPathR_data_ne_nil (r : List String) : (mkAbsPathR r).data ≠ [] := by
  intro h
  have := mkAbsPathR_head r
  rw [h] at this
  cases this

theorem mkAbsPathR_ne_root (st : String) (rest : List String) (hst : st ≠ "") :
    mkAbsPathR (st :: rest) ≠ "/" := by
  intro h
  have hd := congrArg String.data h
  have hstd : st.data ≠ [] := data_ne_nil_of_ne_empty st hst
  cases rest with
  | nil =>
    rw [mkAbsPathR_data_single, show ("/" : String).data = ['/'] from rfl] at hd
    injection hd with _ h2
    exact hstd h2
  | cons r2 rest2 =>
    rw [mkAbsPathR_data_cons, show ("/" : String).data = ['/'] from rfl] at hd
    have hlen2 := congrArg List.length hd
    simp only [List.length_append, List.length_cons, List.length_nil] at hlen2
    have h1 : (mkAbsPathR (r2 :: rest2)).data.length ≠ 0 := fun h0 =>
      mkAbsPathR_data_ne_nil (r2 :: rest2) (List.length_eq_zero.mp h0)
    omega

/-- Scanning a slash-free index region of the path is a no-op. -/
theorem eachDirGo_skip (l : List Char) (j : Nat) :
    ∀ n, (∀ k, j < k → k ≤ j + n → l.get? k ≠ some '/') →
      eachDirGo (j + n) l = eachDirGo j l := by
  intro n
  induction n with
  | zero => intro _; rfl
  | succ m ih =>
    intro h
    have hcur : l.get? (j + m + 1) ≠ some '/' := h (j + m + 1) (by omega) (by omega)
    have hstep : eachDirGo (j + m + 1) l = eachDirGo (j + m) l := by
      have hunf : eachDirGo ((j + m) + 1) l =
          if l.get? ((j + m) + 1) = some '/' then
            (l.take ((j + m) + 1)) :: eachDirGo (j + m) (l.take ((j + m) + 1))
          else eachDirGo (j + m) l := rfl
      show eachDirGo ((j + m) + 1) l = eachDirGo (j + m) l
      rw [hunf, if_neg hcur]
    rw [show j + (m + 1) = j + m + 1 from rfl, hstep]
    exact ih (fun k hk1 hk2 => h k hk1 (by omega))

/-- Hitting the slash that separates the parent from the last segment
truncates to the parent and recurses inside it. -/
theorem eachDirGo_hit (pc sfx : List Char) (hpc : pc ≠ []) :
    eachDirGo pc.length (pc ++ '/' :: sfx) =
      pc :: eachDirGo (pc.length - 1) pc := by
  cases hl : pc.length with
  | zero => exact absurd (List.length_eq_zero.mp hl) hpc
  | succ m =>
    have hget : (pc ++ '/' :: sfx).get? pc.length = some '/' := by
      rw [List.get?_append_right (Nat.le_refl _), Nat.sub_self]
      rfl
    have htake : (pc ++ '/' :: sfx).take pc.length = pc :=
      List.take_left pc ('/' :: sfx)
    rw [hl] at hget htake
    have hunf : eachDirGo (m + 1) (pc ++ '/' :: sfx) =
        if (pc ++ '/' :: sfx).get? (m + 1) = some '/' then
          ((pc ++ '/' :: sfx).take (m + 1)) ::
            eachDirGo m ((pc ++ '/' :: sfx).take (m + 1))
        else eachDirGo m (pc ++ '/' :: sfx) := rfl
    rw [hunf, if_pos hget, htake]
    rfl

/-- The `eachDir` walk on a clean absolute path yields exactly the
nearest-first ancestor chain ending at the root. -/
theorem eachDir_ancestors (fs : FS) (r : List String)
    (hv : ∀ st ∈ r, ValidSeg st) :
    eachDir fs (mkAbsPathR r) = ancestorsR r := by
  induction r with
  | nil =>
    unfold eachDir
    rfl
  | cons st rest ih =>
    have hvst : ValidSeg st := hv st (List.mem_cons_self st rest)
    have habs : filepathAbs fs (mkAbsPathR (st :: rest)) =
        some (mkAbsPathR (st :: rest)) := by
      unfold filepathAbs
      rw [if_pos (mkAbsPathR_head (st :: rest))]
    have hne : mkAbsPathR (st :: rest) ≠ "/" := mkAbsPathR_ne_root st rest hvst.1
    unfold eachDir
    rw [habs]
    dsimp only
    rw [if_neg hne]
    have hnoslash : ∀ k c, st.data.get? k = some c → c ≠ '/' := by
      intro k c hk hc
      subst hc
      exact hvst.2 (List.get?_mem hk)
    cases rest with
    | nil =>
      have hdata : (mkAbsPathR [st]).data = '/' :: st.data := mkAbsPathR_data_single st
      rw [hdata]
      have hlen : ('/' :: st.data).length - 1 = 0 + st.data.length := by
        simp
      rw [hlen]
      rw [eachDirGo_skip ('/' :: st.data) 0 st.data.length ?hskip]
      · rfl
      case hskip =>
        intro k hk1 hk2
        intro hc
        have : ('/' :: st.data).get? k = st.data.get? (k - 1) := by
          cases k with
          | zero => omega
          | succ k2 => simp
        rw [this] at hc
        exact hnoslash (k - 1) '/' hc rfl
    | cons r2 rest2 =>
      have hdata : (mkAbsPathR (st :: r2 :: rest2)).data =
          (mkAbsPathR (r2 :: rest2)).data ++ '/' :: st.data :=
        mkAbsPathR_data_cons st r2 rest2
      rw [hdata]
      set pc := (mkAbsPathR (r2 :: rest2)).data with hpc
      have hpcne : pc ≠ [] := mkAbsPathR_data_ne_nil (r2 :: rest2)
      have hlen : (pc ++ '/' :: st.data).length - 1 = pc.length + st.data.length := by
        simp only [List.length_append, List.length_cons]
        omega
      rw [hlen]
      rw [eachDirGo_skip (pc ++ '/' :: st.data) pc.length st.data.length ?hskip2]
      case hskip2 =>
        intro k hk1 hk2
        intro hc
        rw [List.get?_append_right (by omega)] at hc
        have hk3 : k - pc.length = (k - pc.length - 1) + 1 := by omega
        rw [hk3] at hc
        simp only [List.get?] at hc
        exact hnoslash (k - pc.length - 1) '/' hc rfl
      rw [eachDirGo_hit pc st.data hpcne]
      -- relate to the IH for the parent path
      have hvrest : ∀ st2 ∈ (r2 :: rest2), ValidSeg st2 :=
        fun st2 hst2 => hv st2 (List.mem_cons_of_mem st hst2)
      have ihr := ih hvrest
      have hner : mkAbsPathR (r2 :: rest2) ≠ "/" :=
        mkAbsPathR_ne_root r2 rest2 (hvrest r2 (List.mem_cons_self r2 rest2)).1
      have habsr : filepathAbs fs (mkAbsPathR (r2 :: rest2)) =
          some (mkAbsPathR (r2 :: rest2)) := by
        unfold filepathAbs
        rw [if_pos (mkAbsPathR_head (r2 :: rest2))]
      unfold eachDir at ihr
      rw [habsr] at ihr
      dsimp only at ihr
      rw [if_neg hner] at ihr
      show mkAbsPathR (st :: r2 :: rest2) ::
          (pc :: eachDirGo (pc.length - 1) pc).map (fun l => String.mk l) =
        ancestorsR (st :: r2 :: rest2)
      rw [List.map_cons]
      rw [show String.mk pc = mkAbsPathR (r2 :: rest2) from rfl]
      show mkAbsPathR (st :: r2 :: rest2) ::
          mkAbsPathR (r2 :: rest2) ::
            (eachDirGo ((mkAbsPathR (r2 :: rest2)).data.length - 1)
              (mkAbsPathR (r2 :: rest2)).data).map (fun l => String.mk l) =
        mkAbsPathR (st :: r2 :: rest2) :: ancestorsR (r2 :: rest2)
      rw [← ihr]

/-- The `findUp` loop returns the joined path of the first listed directory
that contains the file, or the empty string. -/
theorem findUpGo_eq_find? (fs : FS) (name : String) (dirs : List String) :
    findUpGo fs name dirs =
      (match dirs.find? (fun d => fileExists fs (filepathJoin d name)) with
       | some d => filepathJoin d name
       | none => "") := by
  induction dirs with
  | nil => rfl
  | cons d rest ih =>
    by_cases hex : fileExists fs (filepathJoin d name) = true
    · unfold findUpGo
      dsimp only
      rw [if_pos hex,
        @List.find?_cons_of_pos String (fun d2 => fileExists fs (filepathJoin d2 name)) d rest hex]
    · unfold findUpGo
      dsimp only
      rw [if_neg hex, ih,
        @List.find?_cons_of_neg String (fun d2 => fileExists fs (filepathJoin d2 name)) d rest (by simpa using hex)]

/-- Claim C7: locating the configuration file from a clean absolute start
directory (given by its innermost-first segment list) examines the
directory itself and every ancestor up to and including `/`, nearest
first, and returns the first directory level containing `.envrc` (joined
with the filename), or the empty string when none does. -/
theorem c7_findup_ancestor_walk (fs : FS) (r : List String)
    (hv : ∀ st ∈ r, ValidSeg st) :
    eachDir fs (mkAbsPathR r) = ancestorsR r ∧
    findUp fs (mkAbsPathR r) ".envrc" =
      (match (ancestorsR r).find?
          (fun d => fileExists fs (filepathJoin d ".envrc")) with
       | some d => filepathJoin d ".envrc"
       | none => "") := by
  have h1 := eachDir_ancestors fs r hv
  refine ⟨h1, ?_⟩
  unfold findUp
  rw [h1]
  exact findUpGo_eq_find? fs ".envrc" (ancestorsR r)

/-- Witness for C7: from `/a/b` with `/a/.envrc` on disk, the walk visits
`/a/b`, `/a`, `/` in order and `findUp` stops at `/a/.envrc`. -/
theorem c7_witness :
    eachDir fs7 (mkAbsPathR ["b", "a"]) = ["/a/b", "/a", "/"] ∧
    findUp fs7 (mkAbsPathR ["b", "a"]) ".envrc" = "/a/.envrc" := by
  have h := c7_findup_ancestor_walk fs7 ["b", "a"] (by decide)
  exact ⟨h.1, h.2⟩

end Direnv
